import Mathlib

/-!
Verification of the heat-storage module (`heat_storage_module.hpp`).

The module is a 1D finite-volume advection-diffusion solver for a coupled
pair of temperature fields (fluid and solid), together with a mesh-to-mesh
linear interpolation routine, a mesh-convergence (MMS) test harness and a
cyclic operating-mode scheduler.

Machine doubles are modelled as rationals (`ℚ`) — except the transcendental
MMS profile functions, modelled over `ℝ`.  Division is Lean's total
division, so `x / 0 = 0` where the C++ produces `inf`/`NaN`; every place
where a division by zero actually occurs is noted next to the theorem that
depends on it.

Cell fields (`geom::FieldCell<Scal>`) are modelled as functions `ℕ → ℚ`
read at indices `0 .. n-1` (the mesh cells in order), or as `List ℚ` where
a freshly built field is returned (the interpolation routine).
-/

/-! ### 1D mesh (collaborator interface)

A 1D mesh as the module consumes it: cells `0 .. n-1` in order with
ascending center coordinates.  Faces of an `n`-cell 1D mesh are `0 .. n`;
face `j` lies between cell `j-1` (its "minus" neighbour,
`GetNeighbourCell(face, 0)`, absent for `j = 0`) and cell `j` (its "plus"
neighbour, absent for `j = n`).  Cell `i` has minus face `i`
(`GetNeighbourFace(cell, 0)`) and plus face `i+1`.  The cell-to-cell
neighbour `GetNeighbourCell(cell, 1)` is `cell+1`, absent (`IsNone`) when
`cell+1` is not a valid cell index. -/

structure Mesh1 where
  n : ℕ
  center : ℕ → ℚ

/-- Modelled from the spec: `geom::InitUniformMesh` (hydro2dmpi/mesh1d.hpp,
not under src/) builds a uniform mesh of `n` cells over the domain
`[0, len]`: ascending, evenly spaced cell centers, cell `i` centered at
`(i + 1/2) · (len / n)`. -/
def uniformMesh (len : ℚ) (n : ℕ) : Mesh1 :=
  ⟨n, fun i => len / (n : ℚ) * ((i : ℚ) + 1 / 2)⟩

/-! ### Mesh interpolator (`HeatStorage::GetInterpolated`) -/

/-- Scalar overload `HeatStorage::GetInterpolated(x, x_left, x_right,
u_left, u_right)` (heat_storage_module.hpp:225-227): linear interpolation
between two sample points.  When `x_left = x_right` the C++ divides by
zero (`0/0 = NaN` at `x = x_left`); the total `ℚ` division returns `0`
there. -/
def GetInterpolatedScalar (x xl xr ul ur : ℚ) : ℚ :=
  ((x - xl) * ur + (xr - x) * ul) / (xr - xl)

/-- The bracket-advancing `while` loop of the field overload of
`HeatStorage::GetInterpolated` (heat_storage_module.hpp:236-243):
while the right source center is left of the destination coordinate `x`,
step the bracket `(idx_left_src, idx_right_src)` one source cell to the
right, stopping (`break`) when the right bracket has no next cell —
`GetNeighbourCell(r, 1).IsNone()`, i.e. `¬(r + 1 < src.n)` on a 1D mesh.
The loop terminates because `r` strictly increases toward `src.n`. -/
def advanceBracket (src : Mesh1) (x : ℚ) (l r : ℕ) : ℕ × ℕ :=
  if src.center r < x then
    if r + 1 < src.n then advanceBracket src x r (r + 1)
    else (l, r)
  else (l, r)
termination_by src.n - r
decreasing_by omega

/-- The value written to one destination cell by `GetInterpolated`
(heat_storage_module.hpp:244-245): linear interpolation between the two
bracketing source cell centers. -/
def interpValue (src : Mesh1) (f : ℕ → ℚ) (x : ℚ) (b : ℕ × ℕ) : ℚ :=
  GetInterpolatedScalar x (src.center b.1) (src.center b.2) (f b.1) (f b.2)

/-- The destination-cell loop of the field overload of
`HeatStorage::GetInterpolated` (heat_storage_module.hpp:234-246): visit
destination cell centers in order, advance the persistent bracket for
each, and emit the interpolated value. -/
def interpLoop (src : Mesh1) (f : ℕ → ℚ) : List ℚ → ℕ × ℕ → List ℚ
  | [], _ => []
  | x :: xs, b =>
    interpValue src f x (advanceBracket src x b.1 b.2) ::
      interpLoop src f xs (advanceBracket src x b.1 b.2)

/-- Field overload `HeatStorage::GetInterpolated(fc_src, mesh_src,
mesh_dest)` (heat_storage_module.hpp:229-248): interpolate a source field
onto the destination mesh's cell centers; both bracket indices start at
cell `0`. -/
def GetInterpolatedField (f : ℕ → ℚ) (src dst : Mesh1) : List ℚ :=
  interpLoop src f ((List.range dst.n).map dst.center) (0, 0)

/-! ### Transport solver (`HeatStorage`) -/

/-- The scalar parameters of `HeatStorage` used by `CalcStep`
(heat_storage_module.hpp:269-274): `h` is the uniform cell spacing
(`mesh.GetVolume(IdxCell(0))`), `dt` the time step
(`UnsteadySolver::GetTimeStep()`), `uf` the fluid velocity, `alpha_f` and
`alpha_s` the conductivities, `T_in` the inflow (hot) temperature. -/
structure SolverParams where
  h : ℚ
  dt : ℚ
  uf : ℚ
  alpha_f : ℚ
  alpha_s : ℚ
  T_in : ℚ

/-- The two two-layer fields of `HeatStorage`
(`solver::LayersData<FieldCell<Scal>>`, heat_storage_module.hpp:328-329):
current and previous snapshots of the fluid and solid temperatures. -/
@[ext]
structure SolverState where
  Tf_curr : ℕ → ℚ
  Tf_prev : ℕ → ℚ
  Ts_curr : ℕ → ℚ
  Ts_prev : ℕ → ℚ

/-- The per-face fluid flux of `HeatStorage::CalcStep`
(heat_storage_module.hpp:279-297), read off the post-swap previous layer
`Tf` (the field that was current when `CalcStep` was entered).  Branches
in source order: left boundary (`cm.IsNone()`, face `0`), right boundary
(`cp.IsNone()`, face `n`), interior (upwind convection plus central
diffusion, accumulated by two `+=` statements). -/
def fluxFluid (p : SolverParams) (n : ℕ) (Tf : ℕ → ℚ) (j : ℕ) : ℚ :=
  if j = 0 then p.uf * p.T_in
  else if j = n then p.uf * Tf (j - 1)
  else p.uf * Tf (j - 1) + -(p.alpha_f * (Tf j - Tf (j - 1)) / p.h)

/-- The per-face solid flux of `HeatStorage::CalcStep`
(heat_storage_module.hpp:279-297): zero at both domain boundaries,
central diffusion on interior faces. -/
def fluxSolid (p : SolverParams) (n : ℕ) (Ts : ℕ → ℚ) (j : ℕ) : ℚ :=
  if j = 0 then 0
  else if j = n then 0
  else -(p.alpha_s * (Ts j - Ts (j - 1)) / p.h)

/-- The source-term pass of `HeatStorage::CalcStep`
(heat_storage_module.hpp:309-319): if the externally-owned source-field
pointer is non-null, add `dt * rhs[cell]` to every cell of the freshly
written field; a null pointer skips the pass.  The same code block exists
once for the fluid and once for the solid phase. -/
def addSource (p : SolverParams) (rhs : Option (ℕ → ℚ)) (T_new : ℕ → ℚ) : ℕ → ℚ :=
  match rhs with
  | none => T_new
  | some src => fun i => T_new i + p.dt * src i

/-- `HeatStorage::CalcStep()` (heat_storage_module.hpp:261-323) on an
`n`-cell mesh.  The two `std::swap`s move the entry current layers into
the previous slots (`Tf`, `Ts` in the source), all fluxes are computed
from them, and the current slots are overwritten cell by cell with
`T[i] - dt/h * (flux(plus face) - flux(minus face))`, after which the
optional source passes run.  `rhs_f`/`rhs_s` model the
`p_fc_rhs_fluid_`/`p_fc_rhs_solid_` pointers (`none` = null). -/
def CalcStep (p : SolverParams) (n : ℕ) (rhs_f rhs_s : Option (ℕ → ℚ))
    (s : SolverState) : SolverState :=
  { Tf_curr := addSource p rhs_f fun i =>
      s.Tf_curr i - p.dt / p.h * (fluxFluid p n s.Tf_curr (i + 1) - fluxFluid p n s.Tf_curr i)
    Tf_prev := s.Tf_curr
    Ts_curr := addSource p rhs_s fun i =>
      s.Ts_curr i - p.dt / p.h * (fluxSolid p n s.Ts_curr (i + 1) - fluxSolid p n s.Ts_curr i)
    Ts_prev := s.Ts_curr }

/-! ### The update as the specification words it (§4.2), for the
refinement claim.  These definitions follow the spec sentences, to be
compared with `CalcStep` above. -/

/-- Fluid flux as the spec states it: left domain boundary
`u·T_in`; right domain boundary `u·(fluid value of the minus neighbour)`,
the minus neighbour of face `n` being cell `n-1`; interior face upwind
advection `u·T_fluid(minus)` minus central diffusion
`α_f·(T_fluid(plus)−T_fluid(minus))/h`. -/
def specFluxFluid (p : SolverParams) (n : ℕ) (Tf : ℕ → ℚ) (j : ℕ) : ℚ :=
  if j = 0 then p.uf * p.T_in
  else if j = n then p.uf * Tf (n - 1)
  else p.uf * Tf (j - 1) - p.alpha_f * (Tf j - Tf (j - 1)) / p.h

/-- Solid flux as the spec states it: zero at either domain boundary,
`−α_s·(T_solid(plus)−T_solid(minus))/h` on interior faces. -/
def specFluxSolid (p : SolverParams) (n : ℕ) (Ts : ℕ → ℚ) (j : ℕ) : ℚ :=
  if j = 0 ∨ j = n then 0
  else -p.alpha_s * (Ts j - Ts (j - 1)) / p.h

/-- One time step as the spec states it: swap the layers of both fields,
then for every cell and each phase independently set
`new value = previous value − (dt/h)·(flux at plus face − flux at minus
face)`, finally adding `dt·source[cell]` for each phase whose external
source field is supplied. -/
def specCalcStep (p : SolverParams) (n : ℕ) (rhs_f rhs_s : Option (ℕ → ℚ))
    (s : SolverState) : SolverState :=
  { Tf_curr := fun i =>
      s.Tf_curr i - p.dt / p.h *
          (specFluxFluid p n s.Tf_curr (i + 1) - specFluxFluid p n s.Tf_curr i) +
        (match rhs_f with
         | none => 0
         | some src => p.dt * src i)
    Tf_prev := s.Tf_curr
    Ts_curr := fun i =>
      s.Ts_curr i - p.dt / p.h *
          (specFluxSolid p n s.Ts_curr (i + 1) - specFluxSolid p n s.Ts_curr i) +
        (match rhs_s with
         | none => 0
         | some src => p.dt * src i)
    Ts_prev := s.Ts_curr }

/-! ### Operating-mode scheduler (`HeatStorage::Scheduler`) -/

/-- The three operating modes, `Scheduler::State`
(heat_storage_module.hpp:161). -/
inductive SchedState where
  | Charging
  | Idle
  | Discharging
deriving DecidableEq

/-- The four phase durations held by `HeatStorage::Scheduler`
(heat_storage_module.hpp:163-164, 187). -/
structure Scheduler where
  d1 : ℚ
  d2 : ℚ
  d3 : ℚ
  d4 : ℚ

/-- The local `cycle_duration = d1_ + d2_ + d3_ + d4_` of
`Scheduler::GetState` (heat_storage_module.hpp:167). -/
def Scheduler.cycleDuration (sc : Scheduler) : ℚ :=
  sc.d1 + sc.d2 + sc.d3 + sc.d4

/-- The local `offset = t - cycle * cycle_duration` of
`Scheduler::GetState` (heat_storage_module.hpp:168-169), where
`cycle = static_cast<size_t>(t / cycle_duration)`.  For `t ≥ 0` the
`size_t` cast truncates toward zero, i.e. is the natural floor `⌊·⌋₊`
(for `t < 0` the C++ cast is not defined behaviour; all claims restrict
to `t ≥ 0`). -/
def Scheduler.offset (sc : Scheduler) (t : ℚ) : ℚ :=
  t - (⌊t / sc.cycleDuration⌋₊ : ℚ) * sc.cycleDuration

/-- `Scheduler::GetState(t)` (heat_storage_module.hpp:166-173): classify
the offset within the cycle by the nested conditional of the source. -/
def Scheduler.GetState (sc : Scheduler) (t : ℚ) : SchedState :=
  if sc.offset t < sc.d1 then SchedState.Charging
  else if sc.offset t < sc.d1 + sc.d2 then SchedState.Idle
  else if sc.offset t < sc.d1 + sc.d2 + sc.d3 then SchedState.Discharging
  else SchedState.Idle

/-- `Scheduler::GetStateIdx(t)` (heat_storage_module.hpp:174-185): map
the mode to its integer code by the `switch` of the source; the `switch`
is exhaustive over the three enumerators, so the
`default: assert(false);` branch has no counterpart here. -/
def Scheduler.GetStateIdx (sc : Scheduler) (t : ℚ) : ℕ :=
  match sc.GetState t with
  | SchedState.Charging => 1
  | SchedState.Discharging => 2
  | SchedState.Idle => 3

/-! ### MMS convergence tester (`HeatStorage::TesterMms`) -/

/-- Modelled from the spec: `solver::CalcDiff` (hydro2dmpi/solver.hpp, not
under src/) computes "a per-cell L2-style difference" norm between two
cell fields on a mesh.  We take the sum of squared per-cell differences;
the claims settled here depend only on whether the result is zero and on
fields being compared pairwise per cell, which any L2-style norm (with
its strictly monotone square root and positive cell-volume weights)
agrees on. -/
def CalcDiff (f g : List ℚ) : ℚ :=
  (((f.zip g).map fun q => (q.1 - q.2) ^ 2).sum)

/-- One record of `TesterMms::Entry` (heat_storage_module.hpp:72-80),
restricted to the members the diff_prev computation touches: the stage's
mesh, its resulting fluid-temperature field, and the recorded
`diff_prev`. -/
structure MmsEntry where
  mesh : Mesh1
  fc : List ℚ
  diff_prev : ℚ

/-- A cell field stored as a list, read as the `ℕ → ℚ` field that
`GetInterpolatedField` consumes. -/
def listField (l : List ℚ) : ℕ → ℚ := fun i => l.getD i 0

/-- The end-of-stage bookkeeping of the `TesterMms` constructor
(heat_storage_module.hpp:94-126) for one stage, given the series built by
the previous stages, the stage's mesh and its computed fluid field:
`series_.emplace_back()` appends the entry first; the entry's field is
recorded; then `diff_prev` is assigned as in the source,
`series_.empty() ? 0 : CalcDiff(entry.fc_fluid_temperature,
GetInterpolated(series_.back().fc_fluid_temperature,
series_.back().mesh, mesh), mesh)` — where `series_` already contains
the current entry, so `series_.empty()` is false and `series_.back()` is
the current entry itself, not the previous stage. -/
def testerRecordStage (series : List MmsEntry) (mesh : Mesh1) (fc : List ℚ) :
    List MmsEntry :=
  let appended := series ++ [⟨mesh, fc, 0⟩]
  let back := appended.getLastD ⟨mesh, fc, 0⟩
  let dp : ℚ :=
    if appended.isEmpty then 0
    else CalcDiff fc (GetInterpolatedField (listField back.fc) back.mesh mesh)
  series ++ [⟨mesh, fc, dp⟩]

/-! ### MMS profile selection (`hydro::hydro`, heat_storage_module.hpp:457-495)

The exact solution and right-hand side are real functions of `(t, x)`;
`std::cos`/`std::sin`/`sqr` on doubles are modelled over `ℝ`. -/

/-- The exact solution installed for `MMS_exact_solution = "cos(kx)"`
(heat_storage_module.hpp:467). -/
noncomputable def funcExactCos (k : ℝ) : ℝ → ℝ → ℝ :=
  fun _ x => Real.cos (x * k)

/-- The right-hand side installed for `MMS_exact_solution = "cos(kx)"`
(heat_storage_module.hpp:468-471). -/
noncomputable def funcRhsCos (uf alpha k : ℝ) : ℝ → ℝ → ℝ :=
  fun _ x => -uf * k * Real.sin (x * k) + alpha * k ^ 2 * Real.cos (x * k)

/-- The exact solution installed for `MMS_exact_solution = "cos(kx^2)"`
(heat_storage_module.hpp:473). -/
noncomputable def funcExactCos2 (k : ℝ) : ℝ → ℝ → ℝ :=
  fun _ x => Real.cos (x ^ 2 * k)

/-- The right-hand side installed for `MMS_exact_solution = "cos(kx^2)"`
(heat_storage_module.hpp:474-478). -/
noncomputable def funcRhsCos2 (uf alpha k : ℝ) : ℝ → ℝ → ℝ :=
  fun _ x =>
    -uf * k * 2 * x * Real.sin (x ^ 2 * k) +
      alpha * (k ^ 2 * 4 * x ^ 2 * Real.cos (x ^ 2 * k) +
        k * 2 * Real.sin (x ^ 2 * k))

/-- The `MMS_exact_solution` selection chain of `hydro::hydro`
(heat_storage_module.hpp:465-481): the two recognized names install the
paired exact solution and right-hand side; any other name throws
(`Except.error`) before the tester is constructed, so no tester stage
runs. -/
noncomputable def selectMms (uf alpha k : ℝ) (s : String) :
    Except String ((ℝ → ℝ → ℝ) × (ℝ → ℝ → ℝ)) :=
  if s = "cos(kx)" then Except.ok (funcExactCos k, funcRhsCos uf alpha k)
  else if s = "cos(kx^2)" then Except.ok (funcExactCos2 k, funcRhsCos2 uf alpha k)
  else Except.error ("Unknown MMS_exact_solution: " ++ s)

/-! ## Helper lemmas for the transport solver -/

theorem fluxFluid_eq_spec (p : SolverParams) (n : ℕ) (Tf : ℕ → ℚ) (j : ℕ) :
    fluxFluid p n Tf j = specFluxFluid p n Tf j := by
  unfold fluxFluid specFluxFluid
  by_cases h0 : j = 0
  · simp [h0]
  · by_cases hn : j = n
    · simp [h0, hn]
    · simp only [h0, hn, if_false]
      ring

theorem fluxSolid_eq_spec (p : SolverParams) (n : ℕ) (Ts : ℕ → ℚ) (j : ℕ) :
    fluxSolid p n Ts j = specFluxSolid p n Ts j := by
  unfold fluxSolid specFluxSolid
  by_cases h0 : j = 0
  · simp [h0]
  · by_cases hn : j = n
    · simp [h0, hn]
    · simp only [h0, hn, if_false, or_self]
      ring

/-- C3: each `CalcStep` call performs exactly the reference update of the
specification: swap both two-layer fields, compute fluid and solid face
fluxes from the previous-layer values with the boundary/interior cases of
§4.2, apply the finite-volume divergence update to every cell of each
phase independently, and add `dt·source[cell]` for each phase whose
external source field is supplied. -/
theorem c3_calcstep_matches_spec (p : SolverParams) (n : ℕ)
    (rhs_f rhs_s : Option (ℕ → ℚ)) (s : SolverState) :
    CalcStep p n rhs_f rhs_s s = specCalcStep p n rhs_f rhs_s s := by
  unfold CalcStep specCalcStep
  refine SolverState.ext ?_ rfl ?_ rfl
  · funext i
    cases rhs_f with
    | none => simp [addSource, fluxFluid_eq_spec]
    | some src => simp [addSource, fluxFluid_eq_spec]
  · funext i
    cases rhs_s with
    | none => simp [addSource, fluxSolid_eq_spec]
    | some src => simp [addSource, fluxSolid_eq_spec]

theorem fluxFluid_of_zero_params (p : SolverParams) (n : ℕ) (Tf : ℕ → ℚ) (j : ℕ)
    (huf : p.uf = 0) (haf : p.alpha_f = 0) : fluxFluid p n Tf j = 0 := by
  unfold fluxFluid
  split_ifs <;> simp [huf, haf]

theorem fluxSolid_of_zero_params (p : SolverParams) (n : ℕ) (Ts : ℕ → ℚ) (j : ℕ)
    (has : p.alpha_s = 0) : fluxSolid p n Ts j = 0 := by
  unfold fluxSolid
  split_ifs <;> simp [has]

theorem calcStep_curr_of_zero_params (p : SolverParams) (n : ℕ)
    (rhs_f rhs_s : Option (ℕ → ℚ)) (s : SolverState)
    (huf : p.uf = 0) (haf : p.alpha_f = 0) (has : p.alpha_s = 0)
    (hf : ∀ g, rhs_f = some g → ∀ i, g i = 0)
    (hs : ∀ g, rhs_s = some g → ∀ i, g i = 0) (i : ℕ) :
    (CalcStep p n rhs_f rhs_s s).Tf_curr i = s.Tf_curr i ∧
      (CalcStep p n rhs_f rhs_s s).Ts_curr i = s.Ts_curr i := by
  unfold CalcStep
  constructor
  · cases rhs_f with
    | none => simp [addSource, fluxFluid_of_zero_params p n _ _ huf haf]
    | some g =>
      simp [addSource, fluxFluid_of_zero_params p n _ _ huf haf, hf g rfl i]
  · cases rhs_s with
    | none => simp [addSource, fluxSolid_of_zero_params p n _ _ has]
    | some g =>
      simp [addSource, fluxSolid_of_zero_params p n _ _ has, hs g rfl i]

/-- C5: with zero advective velocity, zero fluid and solid conductivity
and zero (or absent) source fields, both temperature fields are unchanged
by `CalcStep` at every cell, for any number of consecutive steps. -/
theorem c5_zero_params_invariant (p : SolverParams) (n : ℕ)
    (rhs_f rhs_s : Option (ℕ → ℚ)) (s : SolverState)
    (huf : p.uf = 0) (haf : p.alpha_f = 0) (has : p.alpha_s = 0)
    (hf : ∀ g, rhs_f = some g → ∀ i, g i = 0)
    (hs : ∀ g, rhs_s = some g → ∀ i, g i = 0) :
    ∀ k i, ((CalcStep p n rhs_f rhs_s)^[k] s).Tf_curr i = s.Tf_curr i ∧
      ((CalcStep p n rhs_f rhs_s)^[k] s).Ts_curr i = s.Ts_curr i := by
  intro k
  induction k with
  | zero => simp
  | succ k ih =>
    intro i
    rw [Function.iterate_succ_apply']
    have hstep := calcStep_curr_of_zero_params p n rhs_f rhs_s
      ((CalcStep p n rhs_f rhs_s)^[k] s) huf haf has hf hs i
    exact ⟨hstep.1.trans (ih i).1, hstep.2.trans (ih i).2⟩

/-- A concrete solver configuration with zero velocity, zero
conductivities and a zero solid source, used to witness C5. -/
def solverParamsZero : SolverParams :=
  ⟨1, 1 / 2, 0, 0, 0, 5⟩

/-- A concrete solver state with non-constant fields, used to witness C5
and C10. -/
def solverStateA : SolverState :=
  ⟨fun i => (i : ℚ) + 2, fun i => (i : ℚ) - 1, fun i => 3 * (i : ℚ), fun _ => 7⟩

/-- Witness for C5 at a concrete configuration: three steps of the
zero-parameter solver on a 2-cell mesh leave the current fields at cell 1
unchanged. -/
theorem c5_zero_params_invariant_witness :
    ((CalcStep solverParamsZero 2 none (some fun _ => 0))^[3] solverStateA).Tf_curr 1 =
      solverStateA.Tf_curr 1 ∧
      ((CalcStep solverParamsZero 2 none (some fun _ => 0))^[3] solverStateA).Ts_curr 1 =
        solverStateA.Ts_curr 1 :=
  c5_zero_params_invariant solverParamsZero 2 none (some fun _ => 0) solverStateA
    rfl rfl rfl
    (fun g hg => by cases hg)
    (fun g hg => by intro i; cases hg; rfl)
    3 1

theorem calcStep_leftmost (p : SolverParams) (n : ℕ) (rhs_s : Option (ℕ → ℚ))
    (s : SolverState) (haf : p.alpha_f = 0) (hn : 1 ≤ n) :
    (CalcStep p n none rhs_s s).Tf_curr 0 =
      s.Tf_curr 0 - p.dt / p.h * (p.uf * s.Tf_curr 0 - p.uf * p.T_in) := by
  unfold CalcStep addSource fluxFluid
  simp only
  split_ifs <;> first
    | omega
    | exact False.elim (by assumption)
    | (rw [haf]; ring)
    | ring

/-- C6: for a single `CalcStep` with nonzero velocity, zero fluid
conductivity and no fluid source, any two solvers agreeing on the
pre-step leftmost fluid value (the value the step reads as its previous
layer), the inflow temperature, the velocity, the time step and the cell
spacing produce the same new leftmost fluid value, whatever their
interior field values, solid fields, solid sources or cell counts. -/
theorem c6_leftmost_noninterference (p q : SolverParams) (np nq : ℕ)
    (rsp rsq : Option (ℕ → ℚ)) (sp sq : SolverState)
    (huf : p.uf = q.uf) (hdt : p.dt = q.dt) (hh : p.h = q.h)
    (hTin : p.T_in = q.T_in) (hafp : p.alpha_f = 0) (hafq : q.alpha_f = 0)
    (hufne : p.uf ≠ 0) (hnp : 1 ≤ np) (hnq : 1 ≤ nq)
    (h0 : sp.Tf_curr 0 = sq.Tf_curr 0) :
    (CalcStep p np none rsp sp).Tf_curr 0 = (CalcStep q nq none rsq sq).Tf_curr 0 := by
  rw [calcStep_leftmost p np rsp sp hafp hnp,
    calcStep_leftmost q nq rsq sq hafq hnq, huf, hdt, hh, hTin, h0]

/-- A second concrete solver state whose fields differ from
`solverStateA` everywhere except the leftmost fluid value, used to
witness C6. -/
def solverStateB : SolverState :=
  ⟨fun i => if i = 0 then 2 else 100 - (i : ℚ), fun _ => 9,
    fun i => (i : ℚ) ^ 2, fun i => (i : ℚ) + 4⟩

/-- A concrete solver configuration with nonzero velocity and zero fluid
conductivity, used to witness C6. -/
def solverParamsFlow : SolverParams :=
  ⟨1, 1 / 2, 3, 0, 2, 8⟩

/-- Witness for C6 at a concrete pair of solvers: `solverStateA` and
`solverStateB` share only the leftmost fluid value (2), on meshes of 2
and 5 cells, and get the same new leftmost fluid value. -/
theorem c6_leftmost_noninterference_witness :
    (CalcStep solverParamsFlow 2 none none solverStateA).Tf_curr 0 =
      (CalcStep solverParamsFlow 5 none (some fun i => (i : ℚ)) solverStateB).Tf_curr 0 :=
  c6_leftmost_noninterference solverParamsFlow solverParamsFlow 2 5
    none (some fun i => (i : ℚ)) solverStateA solverStateB
    rfl rfl rfl rfl rfl rfl (by norm_num [solverParamsFlow]) (by norm_num) (by norm_num)
    (by norm_num [solverStateA, solverStateB])

theorem calcStep_null_eq_zero_source (p : SolverParams) (n : ℕ)
    (rhs_f rhs_s : Option (ℕ → ℚ)) (zf zs : ℕ → ℚ)
    (hzf : ∀ i, zf i = 0) (hzs : ∀ i, zs i = 0)
    (hrf : rhs_f = none ∨ rhs_f = some zf) (hrs : rhs_s = none ∨ rhs_s = some zs)
    (s : SolverState) :
    CalcStep p n rhs_f rhs_s s = CalcStep p n (some zf) (some zs) s := by
  unfold CalcStep
  refine SolverState.ext ?_ rfl ?_ rfl
  · rcases hrf with h | h <;> subst h
    · funext i
      simp [addSource, hzf i]
    · rfl
  · rcases hrs with h | h <;> subst h
    · funext i
      simp [addSource, hzs i]
    · rfl

/-- C10: a solver whose fluid and/or solid source-field pointer is null
behaves, under every number of `CalcStep` calls, identically (full state,
hence every cell) to one whose corresponding source field is zero at
every cell: skipping the source pass equals adding `dt·0` per cell. -/
theorem c10_null_source_equiv (p : SolverParams) (n : ℕ)
    (rhs_f rhs_s : Option (ℕ → ℚ)) (zf zs : ℕ → ℚ)
    (hzf : ∀ i, zf i = 0) (hzs : ∀ i, zs i = 0)
    (hrf : rhs_f = none ∨ rhs_f = some zf) (hrs : rhs_s = none ∨ rhs_s = some zs) :
    ∀ k s, (CalcStep p n rhs_f rhs_s)^[k] s = (CalcStep p n (some zf) (some zs))^[k] s := by
  intro k
  induction k with
  | zero => simp
  | succ k ih =>
    intro s
    rw [Function.iterate_succ_apply', Function.iterate_succ_apply', ih s,
      calcStep_null_eq_zero_source p n rhs_f rhs_s zf zs hzf hzs hrf hrs]

/-- Witness for C10 at a concrete configuration: both pointers null (the
main simulation driver's configuration, heat_storage_module.hpp:399-405)
versus both sources zero fields, over two steps. -/
theorem c10_null_source_equiv_witness :
    (CalcStep solverParamsFlow 2 none none)^[2] solverStateA =
      (CalcStep solverParamsFlow 2 (some fun _ => 0) (some fun _ => 0))^[2] solverStateA :=
  c10_null_source_equiv solverParamsFlow 2 none none (fun _ => 0) (fun _ => 0)
    (fun _ => rfl) (fun _ => rfl) (Or.inl rfl) (Or.inl rfl) 2 solverStateA

/-! ## Helper lemmas for the scheduler -/

theorem sched_offset_nonneg (sc : Scheduler) (t : ℚ) (ht : 0 ≤ t)
    (hL : 0 < sc.cycleDuration) : 0 ≤ sc.offset t := by
  unfold Scheduler.offset
  have h1 : (⌊t / sc.cycleDuration⌋₊ : ℚ) ≤ t / sc.cycleDuration :=
    Nat.floor_le (div_nonneg ht hL.le)
  have h2 : (⌊t / sc.cycleDuration⌋₊ : ℚ) * sc.cycleDuration ≤ t := by
    have := mul_le_mul_of_nonneg_right h1 hL.le
    rwa [div_mul_cancel₀ t hL.ne'] at this
  linarith

theorem sched_offset_lt (sc : Scheduler) (t : ℚ) (ht : 0 ≤ t)
    (hL : 0 < sc.cycleDuration) : sc.offset t < sc.cycleDuration := by
  unfold Scheduler.offset
  have h1 : t / sc.cycleDuration < ⌊t / sc.cycleDuration⌋₊ + 1 :=
    Nat.lt_floor_add_one _
  have h2 : t < ((⌊t / sc.cycleDuration⌋₊ : ℚ) + 1) * sc.cycleDuration :=
    (div_lt_iff hL).mp h1
  linarith

theorem sched_offset_period (sc : Scheduler) (t : ℚ) (k : ℕ) (ht : 0 ≤ t)
    (hL : 0 < sc.cycleDuration) :
    sc.offset (t + k * sc.cycleDuration) = sc.offset t := by
  unfold Scheduler.offset
  have hq : (t + k * sc.cycleDuration) / sc.cycleDuration =
      t / sc.cycleDuration + k := by
    rw [add_div, mul_div_assoc, div_self hL.ne', mul_one]
  rw [hq, Nat.floor_add_nat (div_nonneg ht hL.le)]
  push_cast
  ring

/-- C7: for every `t ≥ 0` and positive cycle length, `GetState` is
periodic under adding any whole number of cycles, and its value is always
one of the three defined modes. -/
theorem c7_scheduler_periodic (sc : Scheduler) (t : ℚ) (ht : 0 ≤ t)
    (hL : 0 < sc.cycleDuration) (k : ℕ) :
    sc.GetState (t + k * sc.cycleDuration) = sc.GetState t ∧
      (sc.GetState t = SchedState.Charging ∨ sc.GetState t = SchedState.Idle ∨
        sc.GetState t = SchedState.Discharging) := by
  constructor
  · unfold Scheduler.GetState
    rw [sched_offset_period sc t k ht hL]
  · unfold Scheduler.GetState
    split_ifs <;> simp

/-- Witness for C7 at a concrete scheduler: phase durations 1, 1, 1, 1,
time 2 (inside the discharge phase), three cycles ahead. -/
theorem c7_scheduler_periodic_witness :
    (Scheduler.mk 1 1 1 1).GetState (2 + (3 : ℕ) * (Scheduler.mk 1 1 1 1).cycleDuration) =
        (Scheduler.mk 1 1 1 1).GetState 2 ∧
      ((Scheduler.mk 1 1 1 1).GetState 2 = SchedState.Charging ∨
        (Scheduler.mk 1 1 1 1).GetState 2 = SchedState.Idle ∨
        (Scheduler.mk 1 1 1 1).GetState 2 = SchedState.Discharging) :=
  c7_scheduler_periodic (Scheduler.mk 1 1 1 1) 2 (by norm_num)
    (by norm_num [Scheduler.cycleDuration]) 3

theorem sched_charging_iff (sc : Scheduler) (t : ℚ) (ht : 0 ≤ t)
    (hL : 0 < sc.cycleDuration) :
    sc.GetState t = SchedState.Charging ↔
      0 ≤ sc.offset t ∧ sc.offset t < sc.d1 := by
  have h0 := sched_offset_nonneg sc t ht hL
  unfold Scheduler.GetState
  split_ifs with h1 h2 h3
  · exact iff_of_true rfl ⟨h0, h1⟩
  · exact iff_of_false (by simp) fun hc => h1 hc.2
  · exact iff_of_false (by simp) fun hc => h1 hc.2
  · exact iff_of_false (by simp) fun hc => h1 hc.2

theorem sched_discharging_iff (sc : Scheduler) (t : ℚ) (hd2 : 0 ≤ sc.d2) :
    sc.GetState t = SchedState.Discharging ↔
      sc.d1 + sc.d2 ≤ sc.offset t ∧ sc.offset t < sc.d1 + sc.d2 + sc.d3 := by
  unfold Scheduler.GetState
  split_ifs with h1 h2 h3
  · exact iff_of_false (by simp) fun hc => by linarith [hc.1]
  · exact iff_of_false (by simp) fun hc => by linarith [hc.1]
  · exact iff_of_true rfl ⟨not_lt.mp h2, h3⟩
  · exact iff_of_false (by simp) fun hc => h3 hc.2

theorem sched_idle_iff (sc : Scheduler) (t : ℚ) (ht : 0 ≤ t)
    (hd2 : 0 ≤ sc.d2) (hd3 : 0 ≤ sc.d3) (hL : 0 < sc.cycleDuration) :
    sc.GetState t = SchedState.Idle ↔
      ((sc.d1 ≤ sc.offset t ∧ sc.offset t < sc.d1 + sc.d2) ∨
        (sc.d1 + sc.d2 + sc.d3 ≤ sc.offset t ∧ sc.offset t < sc.cycleDuration)) := by
  have hlt := sched_offset_lt sc t ht hL
  unfold Scheduler.GetState
  split_ifs with h1 h2 h3
  · refine iff_of_false (by simp) ?_
    rintro (⟨ha, _⟩ | ⟨ha, _⟩) <;> linarith
  · exact iff_of_true rfl (Or.inl ⟨not_lt.mp h1, h2⟩)
  · refine iff_of_false (by simp) ?_
    rintro (⟨_, hb⟩ | ⟨ha, _⟩) <;> linarith
  · exact iff_of_true rfl (Or.inr ⟨not_lt.mp h3, hlt⟩)

theorem sched_idx_cases (sc : Scheduler) (t : ℚ) :
    (sc.GetStateIdx t = 1 ↔ sc.GetState t = SchedState.Charging) ∧
      (sc.GetStateIdx t = 2 ↔ sc.GetState t = SchedState.Discharging) ∧
      (sc.GetStateIdx t = 3 ↔ sc.GetState t = SchedState.Idle) := by
  unfold Scheduler.GetStateIdx
  cases h : sc.GetState t <;> simp

/-- C8: with `offset` the in-cycle time the source computes, `GetState`
returns Charging exactly on `[0, d1)`, Idle exactly on `[d1, d1+d2)`
and `[d1+d2+d3, L)`, and Discharging exactly on `[d1+d2, d1+d2+d3)`;
`GetStateIdx` returns 1 exactly for Charging, 2 exactly for Discharging,
3 exactly for Idle, and never anything else (the source's unmapped-state
`assert(false)` branch is unreachable). -/
theorem c8_scheduler_classification (sc : Scheduler) (t : ℚ) (ht : 0 ≤ t)
    (hd2 : 0 ≤ sc.d2) (hd3 : 0 ≤ sc.d3) (hL : 0 < sc.cycleDuration) :
    (sc.GetState t = SchedState.Charging ↔
        0 ≤ sc.offset t ∧ sc.offset t < sc.d1) ∧
      (sc.GetState t = SchedState.Idle ↔
        ((sc.d1 ≤ sc.offset t ∧ sc.offset t < sc.d1 + sc.d2) ∨
          (sc.d1 + sc.d2 + sc.d3 ≤ sc.offset t ∧ sc.offset t < sc.cycleDuration))) ∧
      (sc.GetState t = SchedState.Discharging ↔
        sc.d1 + sc.d2 ≤ sc.offset t ∧ sc.offset t < sc.d1 + sc.d2 + sc.d3) ∧
      (sc.GetStateIdx t = 1 ↔ sc.GetState t = SchedState.Charging) ∧
      (sc.GetStateIdx t = 2 ↔ sc.GetState t = SchedState.Discharging) ∧
      (sc.GetStateIdx t = 3 ↔ sc.GetState t = SchedState.Idle) ∧
      (sc.GetStateIdx t = 1 ∨ sc.GetStateIdx t = 2 ∨ sc.GetStateIdx t = 3) := by
  have hidx := sched_idx_cases sc t
  refine ⟨sched_charging_iff sc t ht hL, sched_idle_iff sc t ht hd2 hd3 hL,
    sched_discharging_iff sc t hd2, hidx.1, hidx.2.1, hidx.2.2, ?_⟩
  unfold Scheduler.GetStateIdx
  cases sc.GetState t <;> simp

/-- Witness for C8 at a concrete scheduler: phase durations 1, 2, 3, 4
and time 7/2 (in the discharging window of the first cycle). -/
theorem c8_scheduler_classification_witness :
    ((Scheduler.mk 1 2 3 4).GetState (7 / 2) = SchedState.Charging ↔
        0 ≤ (Scheduler.mk 1 2 3 4).offset (7 / 2) ∧
          (Scheduler.mk 1 2 3 4).offset (7 / 2) < (Scheduler.mk 1 2 3 4).d1) ∧
      ((Scheduler.mk 1 2 3 4).GetState (7 / 2) = SchedState.Idle ↔
        (((Scheduler.mk 1 2 3 4).d1 ≤ (Scheduler.mk 1 2 3 4).offset (7 / 2) ∧
            (Scheduler.mk 1 2 3 4).offset (7 / 2) <
              (Scheduler.mk 1 2 3 4).d1 + (Scheduler.mk 1 2 3 4).d2) ∨
          ((Scheduler.mk 1 2 3 4).d1 + (Scheduler.mk 1 2 3 4).d2 + (Scheduler.mk 1 2 3 4).d3 ≤
              (Scheduler.mk 1 2 3 4).offset (7 / 2) ∧
            (Scheduler.mk 1 2 3 4).offset (7 / 2) < (Scheduler.mk 1 2 3 4).cycleDuration))) ∧
      ((Scheduler.mk 1 2 3 4).GetState (7 / 2) = SchedState.Discharging ↔
        (Scheduler.mk 1 2 3 4).d1 + (Scheduler.mk 1 2 3 4).d2 ≤
            (Scheduler.mk 1 2 3 4).offset (7 / 2) ∧
          (Scheduler.mk 1 2 3 4).offset (7 / 2) <
            (Scheduler.mk 1 2 3 4).d1 + (Scheduler.mk 1 2 3 4).d2 + (Scheduler.mk 1 2 3 4).d3) ∧
      ((Scheduler.mk 1 2 3 4).GetStateIdx (7 / 2) = 1 ↔
        (Scheduler.mk 1 2 3 4).GetState (7 / 2) = SchedState.Charging) ∧
      ((Scheduler.mk 1 2 3 4).GetStateIdx (7 / 2) = 2 ↔
        (Scheduler.mk 1 2 3 4).GetState (7 / 2) = SchedState.Discharging) ∧
      ((Scheduler.mk 1 2 3 4).GetStateIdx (7 / 2) = 3 ↔
        (Scheduler.mk 1 2 3 4).GetState (7 / 2) = SchedState.Idle) ∧
      ((Scheduler.mk 1 2 3 4).GetStateIdx (7 / 2) = 1 ∨
        (Scheduler.mk 1 2 3 4).GetStateIdx (7 / 2) = 2 ∨
        (Scheduler.mk 1 2 3 4).GetStateIdx (7 / 2) = 3) :=
  c8_scheduler_classification (Scheduler.mk 1 2 3 4) (7 / 2) (by norm_num)
    (by norm_num) (by norm_num) (by norm_num [Scheduler.cycleDuration])

/-! ## Helper lemmas for the interpolator -/

theorem advanceBracket_of_not_lt (src : Mesh1) (x : ℚ) (l r : ℕ)
    (hx : ¬src.center r < x) : advanceBracket src x l r = (l, r) := by
  rw [advanceBracket, if_neg hx]

theorem advanceBracket_stop (src : Mesh1) (x : ℚ) (l r : ℕ)
    (hx : src.center r < x) (hr : ¬r + 1 < src.n) :
    advanceBracket src x l r = (l, r) := by
  rw [advanceBracket, if_pos hx, if_neg hr]

theorem advanceBracket_step (src : Mesh1) (x : ℚ) (l r : ℕ)
    (hx : src.center r < x) (hr : r + 1 < src.n) :
    advanceBracket src x l r = advanceBracket src x r (r + 1) := by
  rw [advanceBracket]
  rw [if_pos hx, if_pos hr]

theorem advanceBracket_adjacent (src : Mesh1) (i l : ℕ)
    (h1 : 1 ≤ i) (hi : i < src.n)
    (hc : src.center (i - 1) < src.center i) :
    advanceBracket src (src.center i) l (i - 1) = (i - 1, i) := by
  rw [advanceBracket_step src _ l (i - 1) hc (by omega),
    show i - 1 + 1 = i from by omega]
  exact advanceBracket_of_not_lt src _ (i - 1) i (lt_irrefl _)

theorem scalar_at_left_endpoint (xl xr ul ur : ℚ) (h : xl < xr) :
    GetInterpolatedScalar xl xl xr ul ur = ul := by
  unfold GetInterpolatedScalar
  have hne : xr - xl ≠ 0 := sub_ne_zero.mpr (ne_of_gt h)
  field_simp

theorem scalar_at_right_endpoint (xl xr ul ur : ℚ) (h : xl < xr) :
    GetInterpolatedScalar xr xl xr ul ur = ur := by
  unfold GetInterpolatedScalar
  have hne : xr - xl ≠ 0 := sub_ne_zero.mpr (ne_of_gt h)
  field_simp

theorem interp_identity_suffix (src : Mesh1) (f : ℕ → ℚ)
    (hmono : ∀ j, j + 1 < src.n → src.center j < src.center (j + 1)) :
    ∀ k i l, 1 ≤ i → i + k ≤ src.n →
      interpLoop src f ((List.range' i k).map src.center) (l, i - 1) =
        (List.range' i k).map f := by
  intro k
  induction k with
  | zero => intro i l _ _; simp [interpLoop]
  | succ k ih =>
    intro i l h1 h2
    rw [List.range'_succ, List.map_cons, List.map_cons, interpLoop]
    dsimp only
    have hc : src.center (i - 1) < src.center i := by
      have hstep := hmono (i - 1) (by omega)
      rwa [show i - 1 + 1 = i from by omega] at hstep
    rw [advanceBracket_adjacent src i l h1 (by omega) hc]
    have hhead : interpValue src f (src.center i) (i - 1, i) = f i := by
      unfold interpValue
      exact scalar_at_right_endpoint _ _ _ _ hc
    rw [hhead]
    have htail := ih (i + 1) (i - 1) (by omega) (by omega)
    rw [show i + 1 - 1 = i from by omega] at htail
    rw [htail]

/-- C2 (amended): the scalar interpolation is exact at either bracket
endpoint whenever the bracket is non-degenerate (`x_left < x_right`); and
interpolating a field from a mesh onto the identical mesh reproduces the
source value at every cell except the first, where the bracket never
advances (`left = right = 0`) and the value is the degenerate formula
`GetInterpolatedScalar c₀ c₀ c₀ f₀ f₀` — a division `0 / 0`, `NaN` in the
C++, `0` in this model. -/
theorem c2_interpolation_identity (src : Mesh1) (f : ℕ → ℚ)
    (hmono : ∀ j, j + 1 < src.n → src.center j < src.center (j + 1))
    (hn : 1 ≤ src.n) :
    (∀ x xl xr ul ur : ℚ, xl < xr →
      GetInterpolatedScalar xl xl xr ul ur = ul ∧
        GetInterpolatedScalar xr xl xr ul ur = ur) ∧
      GetInterpolatedField f src src =
        GetInterpolatedScalar (src.center 0) (src.center 0) (src.center 0)
            (f 0) (f 0) ::
          (List.range' 1 (src.n - 1)).map f := by
  constructor
  · intro x xl xr ul ur h
    exact ⟨scalar_at_left_endpoint xl xr ul ur h,
      scalar_at_right_endpoint xl xr ul ur h⟩
  · unfold GetInterpolatedField
    have hsplit : List.range src.n = 0 :: List.range' 1 (src.n - 1) := by
      rw [List.range_eq_range']
      conv_lhs => rw [show src.n = (src.n - 1) + 1 from by omega]
      rw [List.range'_succ]
    rw [hsplit, List.map_cons, interpLoop]
    dsimp only
    rw [advanceBracket_of_not_lt src _ 0 0 (lt_irrefl _)]
    have htail := interp_identity_suffix src f hmono (src.n - 1) 1 0
      (le_refl 1) (by omega)
    rw [show (1 : ℕ) - 1 = 0 from rfl] at htail
    rw [htail]
    rfl

/-- A 2-cell mesh with cell centers 0 and 1, used as both source and
destination in the C2 counterexample. -/
def cexMesh2 : Mesh1 := ⟨2, fun i => (i : ℚ)⟩

/-- The constant-1 source field of the C2 counterexample. -/
def cexField2 : ℕ → ℚ := fun _ => 1

theorem cexField2_interp : GetInterpolatedField cexField2 cexMesh2 cexMesh2 = [0, 1] := by
  have hr : (List.range cexMesh2.n).map cexMesh2.center = [(0 : ℚ), 1] := by
    norm_num [cexMesh2, List.range_succ]
  have hb0 : advanceBracket cexMesh2 0 0 0 = (0, 0) :=
    advanceBracket_of_not_lt _ _ _ _ (by norm_num [cexMesh2])
  have hb1 : advanceBracket cexMesh2 1 0 0 = (0, 1) := by
    rw [advanceBracket_step _ _ _ _ (by norm_num [cexMesh2]) (by norm_num [cexMesh2])]
    exact advanceBracket_of_not_lt _ _ _ _ (by norm_num [cexMesh2])
  unfold GetInterpolatedField
  rw [hr, interpLoop]
  dsimp only
  rw [hb0, interpLoop]
  dsimp only
  rw [hb1, interpLoop]
  norm_num [interpValue, GetInterpolatedScalar, cexMesh2, cexField2]

/-- Counterexample to C2 as stated: on the identical 2-cell mesh with
centers 0 and 1, the first destination cell's center coincides with the
first source cell's center, yet the interpolated value is the degenerate
`0/0` (here `0`; `NaN` in the C++ doubles), not the source value 1. -/
theorem c2_counterexample :
    (GetInterpolatedField cexField2 cexMesh2 cexMesh2).getD 0 0 = 0 ∧
      cexField2 0 = 1 ∧
      (GetInterpolatedField cexField2 cexMesh2 cexMesh2).getD 0 0 ≠ cexField2 0 := by
  rw [cexField2_interp]
  norm_num [cexField2]

/-- A 3-cell mesh with cell centers 0, 1, 2, used to witness the amended
C2. -/
def cexMesh3 : Mesh1 := ⟨3, fun i => (i : ℚ)⟩

/-- Witness for the amended C2 at a concrete mesh and field. -/
theorem c2_interpolation_identity_witness :
    GetInterpolatedField (fun i => (i : ℚ) + 5) cexMesh3 cexMesh3 =
      GetInterpolatedScalar (cexMesh3.center 0) (cexMesh3.center 0)
          (cexMesh3.center 0) ((0 : ℚ) + 5) ((0 : ℚ) + 5) ::
        (List.range' 1 (cexMesh3.n - 1)).map (fun i => (i : ℚ) + 5) :=
  (c2_interpolation_identity cexMesh3 (fun i => (i : ℚ) + 5)
    (fun j hj => by push_cast [cexMesh3]; linarith)
    (by norm_num [cexMesh3])).2

theorem center_le_of_adjacent (src : Mesh1)
    (hmono : ∀ j, j + 1 < src.n → src.center j < src.center (j + 1)) :
    ∀ a b, a ≤ b → b < src.n → src.center a ≤ src.center b := by
  intro a b
  induction b with
  | zero =>
    intro hab _
    rw [Nat.le_zero.mp hab]
  | succ b ih =>
    intro hab hb
    rcases Nat.eq_or_lt_of_le hab with h | h
    · rw [h]
    · exact le_trans (ih (by omega) (by omega)) (hmono b hb).le

theorem advanceBracket_beyond (src : Mesh1) (x : ℚ)
    (hall : ∀ j, j < src.n → src.center j < x) :
    ∀ k r l, src.n - r = k → r + 1 < src.n →
      advanceBracket src x l r = (src.n - 2, src.n - 1) := by
  intro k
  induction k with
  | zero => intro r l hk hr; omega
  | succ k ih =>
    intro r l hk hr
    rw [advanceBracket_step src x l r (hall r (by omega)) hr]
    by_cases h2 : r + 2 < src.n
    · exact ih (r + 1) r (by omega) (by omega)
    · rw [advanceBracket_stop src x r (r + 1) (hall (r + 1) (by omega)) (by omega)]
      simp only [Prod.mk.injEq]
      omega

theorem advanceBracket_preserves_inv (src : Mesh1) (x : ℚ) :
    ∀ k l r, src.n - r = k → r < src.n → (l = 0 ∧ r = 0 ∨ l + 1 = r) →
      (advanceBracket src x l r).2 < src.n ∧
        ((advanceBracket src x l r).1 = 0 ∧ (advanceBracket src x l r).2 = 0 ∨
          (advanceBracket src x l r).1 + 1 = (advanceBracket src x l r).2) := by
  intro k
  induction k with
  | zero => intro l r hk hr _; omega
  | succ k ih =>
    intro l r hk hr hinv
    by_cases hx : src.center r < x
    · by_cases hr1 : r + 1 < src.n
      · rw [advanceBracket_step src x l r hx hr1]
        exact ih r (r + 1) (by omega) hr1 (Or.inr rfl)
      · rw [advanceBracket_stop src x l r hx hr1]
        exact ⟨hr, hinv⟩
    · rw [advanceBracket_of_not_lt src x l r hx]
      exact ⟨hr, hinv⟩

theorem advanceBracket_beyond_inv (src : Mesh1) (x : ℚ)
    (hall : ∀ j, j < src.n → src.center j < x) (h2 : 2 ≤ src.n)
    (l r : ℕ) (hr : r < src.n) (hinv : l = 0 ∧ r = 0 ∨ l + 1 = r) :
    advanceBracket src x l r = (src.n - 2, src.n - 1) := by
  by_cases hr1 : r + 1 < src.n
  · exact advanceBracket_beyond src x hall (src.n - r) r l rfl hr1
  · rw [advanceBracket_stop src x l r (hall r hr) hr1]
    rcases hinv with ⟨hl0, hr0⟩ | hlr
    · omega
    · simp only [Prod.mk.injEq]
      omega

theorem interpLoop_getD_beyond (src : Mesh1) (f : ℕ → ℚ) (h2 : 2 ≤ src.n)
    (hmono : ∀ j, j + 1 < src.n → src.center j < src.center (j + 1)) :
    ∀ (xs : List ℚ) (l r : ℕ), r < src.n → (l = 0 ∧ r = 0 ∨ l + 1 = r) →
      ∀ i, i < xs.length → src.center (src.n - 1) < xs.getD i 0 →
        (interpLoop src f xs (l, r)).getD i 0 =
          GetInterpolatedScalar (xs.getD i 0) (src.center (src.n - 2))
            (src.center (src.n - 1)) (f (src.n - 2)) (f (src.n - 1)) := by
  intro xs
  induction xs with
  | nil => intro l r _ _ i hi _; simp at hi
  | cons x xs ih =>
    intro l r hr hinv i hi hx
    rw [interpLoop]
    dsimp only
    cases i with
    | zero =>
      have hxx : src.center (src.n - 1) < x := by
        simpa using hx
      have hall : ∀ j, j < src.n → src.center j < x := fun j hj =>
        lt_of_le_of_lt
          (center_le_of_adjacent src hmono j (src.n - 1) (by omega) (by omega))
          hxx
      rw [advanceBracket_beyond_inv src x hall h2 l r hr hinv]
      simp only [List.getD_cons_zero]
      rfl
    | succ i =>
      have hpres := advanceBracket_preserves_inv src x (src.n - r) l r rfl hr hinv
      have htail := ih (advanceBracket src x l r).1 (advanceBracket src x l r).2
        hpres.1 hpres.2 i (by simpa using hi)
        (by simpa [List.getD_cons_succ] using hx)
      rw [Prod.mk.eta] at htail
      simpa [List.getD_cons_succ] using htail

/-- C4 (amended): for every destination cell whose center lies beyond
the last source cell's center — on any destination mesh, including mixed
ones where other cells are not beyond — the bracket reaching that cell
(always `(0, 0)` or a pair of adjacent source cells) advances to the last
two source cells `(src.n - 2, src.n - 1)` and stops, and the value
returned for that cell is the linear extrapolation through those two
source samples — not the boundary cell's value (flat extrapolation),
which it equals only when the last two source values coincide. -/
theorem c4_beyond_last_is_linear_extrapolation (src dst : Mesh1) (f : ℕ → ℚ)
    (h2 : 2 ≤ src.n)
    (hmono : ∀ j, j + 1 < src.n → src.center j < src.center (j + 1)) :
    ∀ i, i < dst.n → src.center (src.n - 1) < dst.center i →
      (GetInterpolatedField f src dst).getD i 0 =
        GetInterpolatedScalar (dst.center i) (src.center (src.n - 2))
          (src.center (src.n - 1)) (f (src.n - 2)) (f (src.n - 1)) := by
  intro i hi hx
  unfold GetInterpolatedField
  have hlen : i < ((List.range dst.n).map dst.center).length := by
    simpa using hi
  have hgd : ((List.range dst.n).map dst.center).getD i 0 = dst.center i := by
    rw [List.getD_eq_getElem _ _ hlen]
    simp
  have hmain := interpLoop_getD_beyond src f h2 hmono
    ((List.range dst.n).map dst.center) 0 0 (by omega) (Or.inl ⟨rfl, rfl⟩)
    i hlen (by rwa [hgd])
  rwa [hgd] at hmain

/-- The 2-cell source mesh of the C4 counterexample, centers 0 and 1,
with field values 0 and 1. -/
def cexSrc4 : Mesh1 := ⟨2, fun i => (i : ℚ)⟩

/-- The single-cell destination mesh of the C4 counterexample, center 3 —
beyond the last source center. -/
def cexDst4 : Mesh1 := ⟨1, fun _ => 3⟩

/-- The source field of the C4 counterexample: cell `i` holds `i`. -/
def cexField4 : ℕ → ℚ := fun i => (i : ℚ)

/-- Counterexample to C4 as stated: the destination cell at coordinate 3
lies beyond the last source center 1, and the returned value is the
linear extrapolation 3, not the boundary (last) source cell's value 1. -/
theorem c4_counterexample :
    (GetInterpolatedField cexField4 cexSrc4 cexDst4).getD 0 0 = 3 ∧
      cexField4 (cexSrc4.n - 1) = 1 ∧
      (GetInterpolatedField cexField4 cexSrc4 cexDst4).getD 0 0 ≠
        cexField4 (cexSrc4.n - 1) := by
  have hr : (List.range cexDst4.n).map cexDst4.center = [(3 : ℚ)] := by
    norm_num [cexDst4, List.range_succ]
  have hb : advanceBracket cexSrc4 3 0 0 = (0, 1) := by
    rw [advanceBracket_step _ _ _ _ (by norm_num [cexSrc4]) (by norm_num [cexSrc4])]
    exact advanceBracket_stop _ _ _ _ (by norm_num [cexSrc4]) (by norm_num [cexSrc4])
  have hres : GetInterpolatedField cexField4 cexSrc4 cexDst4 = [3] := by
    unfold GetInterpolatedField
    rw [hr, interpLoop]
    dsimp only
    rw [hb, interpLoop]
    norm_num [interpValue, GetInterpolatedScalar, cexSrc4, cexField4]
  rw [hres]
  norm_num [cexField4, cexSrc4]

/-- A mixed 3-cell destination mesh with centers 1/2, 2, 3: the first
cell lies inside the source domain (not beyond the last source center 1),
the last two lie beyond it. -/
def cexDstMixed : Mesh1 := ⟨3, fun i => if i = 0 then 1 / 2 else (i : ℚ) + 1⟩

/-- Witness for the amended C4 on a mixed destination mesh: source
centers 0, 1 with values 0, 1; destination centers 1/2, 2, 3; the
beyond-cell at index 2 gets the linear extrapolation through the last two
source samples. -/
theorem c4_beyond_last_witness :
    (GetInterpolatedField cexField4 cexSrc4 cexDstMixed).getD 2 0 =
      GetInterpolatedScalar (cexDstMixed.center 2) (cexSrc4.center (cexSrc4.n - 2))
        (cexSrc4.center (cexSrc4.n - 1)) (cexField4 (cexSrc4.n - 2))
        (cexField4 (cexSrc4.n - 1)) :=
  c4_beyond_last_is_linear_extrapolation cexSrc4 cexDstMixed cexField4
    (by norm_num [cexSrc4])
    (fun j hj => by
      have hj0 : j = 0 := by
        have hn2 := hj
        simp only [cexSrc4] at hn2
        omega
      norm_num [cexSrc4, hj0])
    2 (by norm_num [cexDstMixed])
    (by norm_num [cexSrc4, cexDstMixed])

theorem uniformMesh22_interp_ones :
    GetInterpolatedField (listField [1, 1]) (uniformMesh 2 2) (uniformMesh 2 2) = [0, 1] := by
  have hr : (List.range (uniformMesh 2 2).n).map (uniformMesh 2 2).center =
      [(1 : ℚ) / 2, 3 / 2] := by
    norm_num [uniformMesh, List.range_succ]
  have hb0 : advanceBracket (uniformMesh 2 2) (1 / 2) 0 0 = (0, 0) :=
    advanceBracket_of_not_lt _ _ _ _ (by norm_num [uniformMesh])
  have hb1 : advanceBracket (uniformMesh 2 2) (3 / 2) 0 0 = (0, 1) := by
    rw [advanceBracket_step _ _ _ _ (by norm_num [uniformMesh]) (by norm_num [uniformMesh])]
    exact advanceBracket_of_not_lt _ _ _ _ (by norm_num [uniformMesh])
  unfold GetInterpolatedField
  rw [hr, interpLoop]
  dsimp only
  rw [hb0, interpLoop]
  dsimp only
  rw [hb1, interpLoop]
  norm_num [interpValue, GetInterpolatedScalar, uniformMesh, listField]

/-- C1 (code evaluated at the failing input): run the tester's
end-of-stage bookkeeping for the very first stage, on the 2-cell uniform
mesh over the domain `[0, 2]`, with the stage's computed fluid field
`[1, 1]` (the field a solver with `Tleft = 1` holds after zero steps,
i.e. `MMS_num_steps = 0`).  The recorded `diff_prev` is 1, not the 0 the
claim requires of the first stage: the `series_.empty()` guard is
evaluated after `series_.emplace_back()` and so never fires, and
`series_.back()` is the current entry, so the stage's field is compared
with itself interpolated onto its own mesh — whose first cell is the
degenerate-bracket value `0` (`0/0 = NaN` in the C++ doubles), not 1. -/
theorem c1_first_stage_diff_prev_nonzero :
    (testerRecordStage [] (uniformMesh 2 2) [1, 1]).map MmsEntry.diff_prev = [1] ∧
      (1 : ℚ) ≠ 0 := by
  refine ⟨?_, one_ne_zero⟩
  unfold testerRecordStage
  dsimp only [List.nil_append]
  rw [show List.getLastD [(⟨uniformMesh 2 2, [1, 1], 0⟩ : MmsEntry)]
      ⟨uniformMesh 2 2, [1, 1], 0⟩ = ⟨uniformMesh 2 2, [1, 1], 0⟩ from rfl]
  dsimp only [List.isEmpty_cons]
  rw [if_neg (by simp)]
  rw [uniformMesh22_interp_ones]
  norm_num [CalcDiff]

/-! ## Helper lemmas for the MMS profiles -/

theorem hasDerivAt_exactCos (k x : ℝ) :
    HasDerivAt (fun y => funcExactCos k 0 y) (-Real.sin (x * k) * k) x := by
  unfold funcExactCos
  exact (Real.hasDerivAt_cos (x * k)).comp x (hasDerivAt_mul_const k)

theorem deriv_exactCos (k : ℝ) :
    (deriv fun y => funcExactCos k 0 y) = fun x => -Real.sin (x * k) * k :=
  funext fun x => (hasDerivAt_exactCos k x).deriv

theorem hasDerivAt_deriv_exactCos (k x : ℝ) :
    HasDerivAt (deriv fun y => funcExactCos k 0 y) (-(Real.cos (x * k) * k) * k) x := by
  rw [deriv_exactCos]
  exact (((Real.hasDerivAt_sin (x * k)).comp x (hasDerivAt_mul_const k)).neg).mul_const k

theorem hasDerivAt_sq_mul_const (k x : ℝ) :
    HasDerivAt (fun y : ℝ => y ^ 2 * k) (2 * x * k) x := by
  have hp : HasDerivAt (fun y : ℝ => y ^ 2) (2 * x) x := by
    simpa using hasDerivAt_pow 2 x
  exact hp.mul_const k

theorem hasDerivAt_exactCos2 (k x : ℝ) :
    HasDerivAt (fun y => funcExactCos2 k 0 y)
      (-Real.sin (x ^ 2 * k) * (2 * x * k)) x := by
  unfold funcExactCos2
  exact (Real.hasDerivAt_cos (x ^ 2 * k)).comp x (hasDerivAt_sq_mul_const k x)

theorem deriv_exactCos2 (k : ℝ) :
    (deriv fun y => funcExactCos2 k 0 y) =
      fun x => -Real.sin (x ^ 2 * k) * (2 * x * k) :=
  funext fun x => (hasDerivAt_exactCos2 k x).deriv

theorem hasDerivAt_deriv_exactCos2 (k x : ℝ) :
    HasDerivAt (deriv fun y => funcExactCos2 k 0 y)
      (-(Real.cos (x ^ 2 * k) * (2 * x * k)) * (2 * x * k) +
        -Real.sin (x ^ 2 * k) * (2 * k)) x := by
  rw [deriv_exactCos2]
  have hu : HasDerivAt (fun y : ℝ => -Real.sin (y ^ 2 * k))
      (-(Real.cos (x ^ 2 * k) * (2 * x * k))) x :=
    ((Real.hasDerivAt_sin (x ^ 2 * k)).comp x (hasDerivAt_sq_mul_const k x)).neg
  have hv : HasDerivAt (fun y : ℝ => 2 * y * k) (2 * k) x := by
    have h0 : HasDerivAt (fun y : ℝ => 2 * y) 2 x := by
      simpa using (hasDerivAt_id x).const_mul (2 : ℝ)
    exact h0.mul_const k
  exact hu.mul hv

/-- C9: the MMS exact-solution selection raises (`Except.error`), before
any tester stage can run, exactly when the selector string is not one of
the two recognized names; each recognized name installs the exact
solution paired with its analytically derived right-hand side, satisfying
the steady advection-diffusion relation
`rhs x = uf·T'(x) − alpha·T''(x)`. -/
theorem c9_mms_selection (uf alpha k : ℝ) (s : String) :
    ((∃ e, selectMms uf alpha k s = Except.error e) ↔
        (s ≠ "cos(kx)" ∧ s ≠ "cos(kx^2)")) ∧
      selectMms uf alpha k "cos(kx)" =
        Except.ok (funcExactCos k, funcRhsCos uf alpha k) ∧
      selectMms uf alpha k "cos(kx^2)" =
        Except.ok (funcExactCos2 k, funcRhsCos2 uf alpha k) ∧
      (∀ pair, selectMms uf alpha k s = Except.ok pair → ∀ x : ℝ,
        pair.2 0 x = uf * deriv (fun y => pair.1 0 y) x -
          alpha * deriv (deriv fun y => pair.1 0 y) x) := by
  refine ⟨?_, by simp [selectMms], by simp [selectMms], ?_⟩
  · unfold selectMms
    split_ifs with h1 h2
    · exact iff_of_false (by simp) (by simp [h1])
    · exact iff_of_false (by simp) (by simp [h2])
    · exact iff_of_true ⟨_, rfl⟩ ⟨h1, h2⟩
  · intro pair hp x
    unfold selectMms at hp
    split_ifs at hp with h1 h2
    · rcases Except.ok.inj hp with rfl
      rw [(hasDerivAt_exactCos k x).deriv, (hasDerivAt_deriv_exactCos k x).deriv]
      unfold funcRhsCos
      ring
    · rcases Except.ok.inj hp with rfl
      rw [(hasDerivAt_exactCos2 k x).deriv, (hasDerivAt_deriv_exactCos2 k x).deriv]
      unfold funcRhsCos2
      ring
